import Mathlib

/-!
Formal model of the AutoVideoEditor repository's segment-composition and
pipeline logic (src/video_replacer.py, src/upsell_video_replacer.py).
Clip durations are modelled as exact rationals; the external transcoding
engine is modelled through the observable outcomes the scripts consume
(exit codes, parsed stdout, files created).
-/

namespace AutoVideoEditor

/-- Source of a plan step: the anchor (replacement) clip itself, or an entry
of the candidate pool (`video_files[j]`). -/
inductive StepSource where
  | anchor : StepSource
  | pool : Nat → StepSource
deriving DecidableEq

/-- One step of a segment plan: source clip, its full probed duration, and an
optional trim length (`none` means the full clip is used, mirroring the
`use_duration == filler_duration` test at src/video_replacer.py:140). -/
structure PlanStep where
  source : StepSource
  fullDuration : ℚ
  trim : Option ℚ
deriving DecidableEq

/-- Effective duration of a step: `trimSeconds` if present, else the full
clip duration. -/
def PlanStep.effDuration (s : PlanStep) : ℚ :=
  s.trim.getD s.fullDuration

/-- The plan computed for one output file, plus whether the pool was
exhausted with the deficit still uncovered. -/
structure SegmentPlan where
  steps : List PlanStep
  partialCoverage : Bool
deriving DecidableEq

/-- Filler selection index: `(current_index + 1 + filler_index) % len(video_files)`,
advanced by one more position (mod the pool size) when it lands on the
excluded index (src/video_replacer.py:127-129). -/
def fillerVideoIndex (n i k : Nat) : Nat :=
  if (i + 1 + k) % n = i then ((i + 1 + k) % n + 1) % n else (i + 1 + k) % n

/-- The filler while-loop of `process_replacement_video`
(src/video_replacer.py:125-168).  The loop guard is
`remaining_needed > 0 and filler_index <= len(video_files)`; the counter
`filler_index` takes the values `0, 1, ..., len(video_files)`, which we model
by iterating over that list of counter values with an early exit on
`remaining ≤ 0`.  Each iteration selects the filler at `fillerVideoIndex`,
uses `min(filler_duration, remaining_needed)` of it, and trims only when the
used duration is strictly less than the filler's duration. -/
def fillerLoop (pool : List ℚ) (i : Nat) : List Nat → ℚ → List PlanStep × ℚ
  | [], r => ([], r)
  | k :: ks, r =>
    if 0 < r then
      let j := fillerVideoIndex pool.length i k
      let d := pool.getD j 0
      let use := min d r
      let step : PlanStep := ⟨.pool j, d, if use = d then none else some use⟩
      let res := fillerLoop pool i ks (r - use)
      (step :: res.1, res.2)
    else ([], r)

/-- Segment composition, modelling the plan computed by
`process_replacement_video` (src/video_replacer.py:86-188): if the anchor
clip is already at least `target` seconds long it alone is trimmed to
`target`; otherwise the anchor contributes its full duration and the filler
loop covers the deficit.  `partialCoverage` records that the loop exited
with deficit still remaining. -/
def compose (anchorDur target : ℚ) (pool : List ℚ) (i : Nat) : SegmentPlan :=
  if target ≤ anchorDur then
    ⟨[⟨.anchor, anchorDur, some target⟩], false⟩
  else
    let res := fillerLoop pool i (List.range (pool.length + 1)) (target - anchorDur)
    ⟨⟨.anchor, anchorDur, none⟩ :: res.1, decide (0 < res.2)⟩

/-- Sum of the effective durations of a plan's steps. -/
def SegmentPlan.totalDuration (p : SegmentPlan) : ℚ :=
  (p.steps.map PlanStep.effDuration).sum

/-! ### Lemmas about the filler loop -/

theorem effDuration_filler (j : Nat) (d use : ℚ) :
    PlanStep.effDuration ⟨.pool j, d, if use = d then none else some use⟩ = use := by
  by_cases h : use = d <;> simp [PlanStep.effDuration, h]

/-- The effective durations of the filler steps account exactly for the part
of the deficit that the loop covered. -/
theorem fillerLoop_sum (pool : List ℚ) (i : Nat) (ks : List Nat) (r : ℚ) :
    ((fillerLoop pool i ks r).1.map PlanStep.effDuration).sum
      = r - (fillerLoop pool i ks r).2 := by
  induction ks generalizing r with
  | nil => simp [fillerLoop]
  | cons k ks ih =>
    by_cases h : 0 < r
    · simp only [fillerLoop, if_pos h, List.map_cons, List.sum_cons, effDuration_filler]
      rw [ih]
      ring
    · simp [fillerLoop, if_neg h]

/-- The remaining deficit never becomes negative: each iteration uses at most
`remaining_needed` seconds of the selected filler. -/
theorem fillerLoop_nonneg (pool : List ℚ) (i : Nat) (ks : List Nat) (r : ℚ)
    (hr : 0 ≤ r) : 0 ≤ (fillerLoop pool i ks r).2 := by
  induction ks generalizing r with
  | nil => simpa [fillerLoop] using hr
  | cons k ks ih =>
    by_cases h : 0 < r
    · simp only [fillerLoop, if_pos h]
      exact ih _ (by simp [sub_nonneg, min_le_right])
    · simpa [fillerLoop, if_neg h] using hr

/-- The loop emits at most one step per counter value. -/
theorem fillerLoop_length (pool : List ℚ) (i : Nat) (ks : List Nat) (r : ℚ) :
    (fillerLoop pool i ks r).1.length ≤ ks.length := by
  induction ks generalizing r with
  | nil => simp [fillerLoop]
  | cons k ks ih =>
    by_cases h : 0 < r
    · simp only [fillerLoop, if_pos h, List.length_cons]
      exact Nat.succ_le_succ (ih _)
    · simp [fillerLoop, if_neg h]

/-- Every step emitted by the loop points at a pool index produced by
`fillerVideoIndex`. -/
theorem fillerLoop_source_mem (pool : List ℚ) (i : Nat) (ks : List Nat) (r : ℚ) :
    ∀ s ∈ (fillerLoop pool i ks r).1,
      ∃ k, s.source = StepSource.pool (fillerVideoIndex pool.length i k) := by
  induction ks generalizing r with
  | nil => simp [fillerLoop]
  | cons k ks ih =>
    intro s hs
    by_cases h : 0 < r
    · simp only [fillerLoop, if_pos h] at hs
      rcases List.mem_cons.mp hs with h1 | h1
      · exact ⟨k, by rw [h1]⟩
      · exact ih _ s h1
    · simp [fillerLoop, if_neg h] at hs

/-- With at least two pool entries, the skip-adjusted cyclic index never
lands on the excluded index. -/
theorem fillerVideoIndex_ne (n i k : Nat) (hn : 2 ≤ n) (hi : i < n) :
    fillerVideoIndex n i k ≠ i := by
  unfold fillerVideoIndex
  by_cases h : (i + 1 + k) % n = i
  · rw [if_pos h, h]
    rcases Nat.lt_or_ge (i + 1) n with h1 | h1
    · rw [Nat.mod_eq_of_lt h1]; omega
    · have h2 : i + 1 = n := by omega
      rw [h2, Nat.mod_self]; omega
  · rw [if_neg h]
    exact h

/-- In a pool of size one, the skip-adjusted cyclic index is always 0. -/
theorem fillerVideoIndex_singleton (i k : Nat) : fillerVideoIndex 1 i k = 0 := by
  unfold fillerVideoIndex
  rw [Nat.mod_one, Nat.mod_one]
  by_cases h : 0 = i
  · rw [if_pos h]
  · rw [if_neg h]

/-! ### Claim theorems about the segment composer -/

/-- C3 counterexample: the claim "for every pool ... no PlanStep emitted by
the composer has the excluded clip as its sourceClip" fails on a pool of
size 1 (pool `[1]`, excluded index 0, anchor duration 1, target 2): the
plan contains a filler step whose source is pool entry 0, the excluded
clip itself. -/
theorem compose_excluded_reused_in_singleton_pool :
    (⟨StepSource.pool 0, 1, none⟩ : PlanStep) ∈ (compose 1 2 [1] 0).steps := by
  norm_num [compose, fillerLoop, fillerVideoIndex, List.range_succ]

/-- C3 (amended): for every pool of size at least 2, every excluded index
inside the pool, and every target duration, no PlanStep of the composed plan
has the excluded pool entry as its source. -/
theorem compose_filler_avoids_excluded (a t : ℚ) (pool : List ℚ) (i : Nat)
    (hn : 2 ≤ pool.length) (hi : i < pool.length) :
    ∀ s ∈ (compose a t pool i).steps, s.source ≠ StepSource.pool i := by
  intro s hs
  by_cases hc : t ≤ a
  · simp only [compose, if_pos hc, List.mem_singleton] at hs
    simp [hs]
  · simp only [compose, if_neg hc] at hs
    rcases List.mem_cons.mp hs with h1 | h1
    · simp [h1]
    · obtain ⟨k, hk⟩ := fillerLoop_source_mem pool i _ _ s h1
      rw [hk]
      intro heq
      exact fillerVideoIndex_ne pool.length i k hn hi (StepSource.pool.inj heq)

/-- C3 witness: pool `[1, 1]` (size 2), excluded index 0, target 3: the step
`⟨pool 1, 1, none⟩` is a member of the plan, and by the theorem its source
is not the excluded entry. -/
theorem compose_filler_avoids_excluded_witness :
    2 ≤ ([1, 1] : List ℚ).length ∧ 0 < ([1, 1] : List ℚ).length ∧
      (⟨StepSource.pool 1, 1, none⟩ : PlanStep) ∈ (compose 1 3 [1, 1] 0).steps ∧
        (⟨StepSource.pool 1, 1, none⟩ : PlanStep).source ≠ StepSource.pool 0 :=
  ⟨by norm_num, by norm_num,
    by norm_num [compose, fillerLoop, fillerVideoIndex, List.range_succ],
    compose_filler_avoids_excluded 1 3 [1, 1] 0 (by norm_num) (by norm_num)
      ⟨StepSource.pool 1, 1, none⟩
      (by norm_num [compose, fillerLoop, fillerVideoIndex, List.range_succ])⟩

/-- C4: for a non-empty pool and a target exceeding the anchor's duration,
the sum of the plan's effective step durations never exceeds the target,
and equals the target exactly whenever `partialCoverage` is not reported. -/
theorem compose_total_duration_spec (a t : ℚ) (pool : List ℚ) (i : Nat)
    (hpool : 0 < pool.length) (h : a < t) :
    (compose a t pool i).totalDuration ≤ t ∧
      ((compose a t pool i).partialCoverage = true ∨
        (compose a t pool i).totalDuration = t) := by
  have hc : ¬ t ≤ a := not_le.mpr h
  have hsum := fillerLoop_sum pool i (List.range (pool.length + 1)) (t - a)
  have hnn := fillerLoop_nonneg pool i (List.range (pool.length + 1)) (t - a)
    (by linarith)
  simp only [compose, if_neg hc, SegmentPlan.totalDuration, List.map_cons,
    List.sum_cons, PlanStep.effDuration, Option.getD_none]
  constructor
  · rw [hsum]; linarith
  · by_cases hr : 0 < (fillerLoop pool i (List.range (pool.length + 1)) (t - a)).2
    · left; simp [hr]
    · right
      have : (fillerLoop pool i (List.range (pool.length + 1)) (t - a)).2 = 0 := by
        linarith [not_lt.mp hr]
      rw [hsum, this]; ring

/-- C4 witness: anchor 1s, target 2s, pool `[1, 1]`: the plan totals exactly
2 seconds and coverage is full. -/
theorem compose_total_duration_spec_witness :
    0 < ([1, 1] : List ℚ).length ∧ (1 : ℚ) < 2 ∧
      (compose 1 2 [1, 1] 0).totalDuration ≤ 2 ∧
        ((compose 1 2 [1, 1] 0).partialCoverage = true ∨
          (compose 1 2 [1, 1] 0).totalDuration = 2) :=
  ⟨by norm_num, by norm_num,
    (compose_total_duration_spec 1 2 [1, 1] 0 (by norm_num) (by norm_num)).1,
    (compose_total_duration_spec 1 2 [1, 1] 0 (by norm_num) (by norm_num)).2⟩

/-- C5: when the anchor is already at least as long as the target, the plan
is a single anchor step trimmed to exactly the target, and the result is
independent of the pool and the excluded index (no pool entry is consulted). -/
theorem compose_anchor_covers_target (a t : ℚ) (pool pool' : List ℚ)
    (i i' : Nat) (h : t ≤ a) :
    compose a t pool i = ⟨[⟨StepSource.anchor, a, some t⟩], false⟩ ∧
      compose a t pool i = compose a t pool' i' := by
  simp [compose, if_pos h]

/-- C5 witness: anchor 5s, target 3s. -/
theorem compose_anchor_covers_target_witness :
    (3 : ℚ) ≤ 5 ∧
      compose 5 3 [1] 0 = ⟨[⟨StepSource.anchor, 5, some 3⟩], false⟩ ∧
        compose 5 3 [1] 0 = compose 5 3 [2, 3] 1 :=
  ⟨by norm_num,
    (compose_anchor_covers_target 5 3 [1] [2, 3] 0 1 (by norm_num)).1,
    (compose_anchor_covers_target 5 3 [1] [2, 3] 0 1 (by norm_num)).2⟩

/-- C6: for every non-empty pool the filler loop terminates with at most
`poolSize + 1` filler steps, and it stops immediately (returning the plan
built so far) as soon as the remaining deficit is no longer positive. -/
theorem compose_filler_loop_bounded (a t : ℚ) (pool : List ℚ) (i : Nat)
    (hpool : 0 < pool.length) :
    ((compose a t pool i).steps.filter
        (fun s => s.source ≠ StepSource.anchor)).length ≤ pool.length + 1 ∧
      ∀ ks r, r ≤ 0 → fillerLoop pool i ks r = ([], r) := by
  constructor
  · by_cases hc : t ≤ a
    · simp [compose, if_pos hc]
    · have h1 := fillerLoop_length pool i (List.range (pool.length + 1)) (t - a)
      simp only [List.length_range] at h1
      simp only [compose, if_neg hc]
      rw [List.filter_cons_of_neg (by simp)]
      exact le_trans (List.length_filter_le _ _) h1
  · intro ks r hr
    cases ks with
    | nil => simp [fillerLoop]
    | cons k ks => simp [fillerLoop, not_lt.mpr hr]

/-- C6 witness: pool `[1]`, and a non-positive deficit returns immediately. -/
theorem compose_filler_loop_bounded_witness :
    0 < ([1] : List ℚ).length ∧
      ((compose 1 2 [1] 0).steps.filter
          (fun s => s.source ≠ StepSource.anchor)).length ≤ 2 ∧
        fillerLoop [1] 0 [5] (-1) = ([], -1) :=
  ⟨by norm_num,
    (compose_filler_loop_bounded 1 2 [1] 0 (by norm_num)).1,
    (compose_filler_loop_bounded 1 2 [1] 0 (by norm_num)).2 [5] (-1) (by norm_num)⟩

/-- C10: for a pool of size exactly 1 whose only entry is the excluded
anchor itself and a target exceeding the anchor's duration, composition
still terminates with a bounded plan (anchor plus at most two fillers) and
every step is either the anchor or pool entry 0 — the excluded clip reused
as its own filler. -/
theorem compose_singleton_pool_reuses_anchor (a t d : ℚ) (h : a < t) :
    (compose a t [d] 0).steps.length ≤ 3 ∧
      ∀ s ∈ (compose a t [d] 0).steps,
        s.source = StepSource.anchor ∨ s.source = StepSource.pool 0 := by
  have hc : ¬ t ≤ a := not_le.mpr h
  constructor
  · simp only [compose, if_neg hc, List.length_cons]
    refine Nat.succ_le_succ (le_trans (fillerLoop_length _ _ _ _) ?_)
    simp
  · intro s hs
    simp only [compose, if_neg hc] at hs
    rcases List.mem_cons.mp hs with h1 | h1
    · left; simp [h1]
    · right
      obtain ⟨k, hk⟩ := fillerLoop_source_mem [d] 0 _ _ s h1
      rw [hk]
      simp [fillerVideoIndex_singleton]

/-- C10 witness: anchor 1s, target 3s, pool `[1]`: the filler step
`⟨pool 0, 1, none⟩` is in the plan and, by the theorem, its source is the
anchor or pool entry 0. -/
theorem compose_singleton_pool_reuses_anchor_witness :
    (1 : ℚ) < 3 ∧ (compose 1 3 [1] 0).steps.length ≤ 3 ∧
      (⟨StepSource.pool 0, 1, none⟩ : PlanStep) ∈ (compose 1 3 [1] 0).steps ∧
        ((⟨StepSource.pool 0, 1, none⟩ : PlanStep).source = StepSource.anchor ∨
          (⟨StepSource.pool 0, 1, none⟩ : PlanStep).source = StepSource.pool 0) :=
  ⟨by norm_num,
    (compose_singleton_pool_reuses_anchor 1 3 1 (by norm_num)).1,
    by norm_num [compose, fillerLoop, fillerVideoIndex, List.range_succ],
    (compose_singleton_pool_reuses_anchor 1 3 1 (by norm_num)).2
      ⟨StepSource.pool 0, 1, none⟩
      (by norm_num [compose, fillerLoop, fillerVideoIndex, List.range_succ])⟩

/-! ### The per-file pipeline and the batch loop (src/video_replacer.py:190-348)

Each output file's pipeline is a fixed sequence of commands: external
transform stages (`subprocess.run(..., check=True)`, which raises on a
non-zero exit), manifest file writes, and `os.remove` calls.  A raised
`CalledProcessError` propagates out of `main` to the top-level handler
(src/video_replacer.py:339-348), which prints the error and calls
`sys.exit(1)`. -/

/-- Artifacts created while processing one output file
(src/video_replacer.py:264-298).  The `temp` constructors correspond to
file names carrying the `temp_` marker. -/
inductive Artifact where
  | mainAudio
  | tempProcessed
  | tempOriginal
  | tempSegments
  | tempFiller (j : Nat)
  | tempMainSegment
  | tempList
  | tempCombined
  | finalOutput
deriving DecidableEq

/-- Whether the artifact's file name carries the `temp_` marker. -/
def Artifact.hasTempMarker : Artifact → Bool
  | .mainAudio => false
  | .finalOutput => false
  | _ => true

/-- One command of the per-file pipeline: an external transform stage that
writes an artifact and may fail (check=True), a Python manifest write, or a
file removal (`os.remove`, possibly guarded by `os.path.exists`). -/
inductive Cmd where
  | stage (a : Artifact)
  | writeFile (a : Artifact)
  | removeFile (a : Artifact)

/-- State of one file's run: the files currently present in the work
directory from this run, the index of the next external stage invocation,
and whether a stage has raised. -/
structure RunState where
  files : List Artifact
  stageIdx : Nat
  failed : Bool
deriving DecidableEq

/-- Effect of one command.  A failing stage raises: it creates nothing and
marks the run failed. -/
def execCmd (failsAt : Nat → Bool) : Cmd → RunState → RunState
  | .stage a, s =>
    if failsAt s.stageIdx then ⟨s.files, s.stageIdx + 1, true⟩
    else ⟨s.files ++ [a], s.stageIdx + 1, false⟩
  | .writeFile a, s => ⟨s.files ++ [a], s.stageIdx, s.failed⟩
  | .removeFile a, s => ⟨s.files.filter (· ≠ a), s.stageIdx, s.failed⟩

/-- Sequential execution with exception semantics: once a stage has raised,
no later command of the file's pipeline runs. -/
def execCmds (failsAt : Nat → Bool) : List Cmd → RunState → RunState
  | [], s => s
  | c :: cs, s => if s.failed then s else execCmds failsAt cs (execCmd failsAt c s)

/-- Commands issued by `process_replacement_video`
(src/video_replacer.py:86-188): one mute-and-cut stage when the
replacement clip is long enough, else the composite build with `fc` filler
iterations followed by its local segment-file cleanup (lines 178-184). -/
def replacementCmds (longEnough : Bool) (fc : Nat) : List Cmd :=
  if longEnough then [.stage .tempProcessed]
  else
    [.stage .tempOriginal, .writeFile .tempSegments]
      ++ (List.range fc).map (fun j => Cmd.stage (.tempFiller j))
      ++ [.stage .tempProcessed, .removeFile .tempOriginal]
      ++ (List.range fc).map (fun j => Cmd.removeFile (.tempFiller j))
      ++ [.removeFile .tempSegments]

/-- The final cleanup block of the loop body (src/video_replacer.py:314-317),
reached only when every stage before it succeeded. -/
def cleanupCmds : List Cmd :=
  [.removeFile .tempProcessed, .removeFile .tempMainSegment,
   .removeFile .tempList, .removeFile .mainAudio, .removeFile .tempCombined]

/-- The whole per-output-file pipeline (src/video_replacer.py:259-317):
extract audio, process the replacement video, cut the main segment, write
the concat manifest, concatenate, mux, then clean up. -/
def fileCmds (longEnough : Bool) (fc : Nat) : List Cmd :=
  [.stage .mainAudio]
    ++ replacementCmds longEnough fc
    ++ [.stage .tempMainSegment, .writeFile .tempList, .stage .tempCombined,
        .stage .finalOutput]
    ++ cleanupCmds

/-- Run one output file's pipeline from an empty work set. -/
def processFile (longEnough : Bool) (fc : Nat) (failsAt : Nat → Bool) : RunState :=
  execCmds failsAt (fileCmds longEnough fc) ⟨[], 0, false⟩

/-- Per-file environment of a batch run: which branch
`process_replacement_video` takes, how many filler iterations it performs,
and which external stage invocations fail. -/
structure FileEnv where
  longEnough : Bool
  fillerCount : Nat
  failsAt : Nat → Bool

/-- The batch loop (src/video_replacer.py:259) with the top-level exception
handler (src/video_replacer.py:339-348): an exception raised while
processing one file propagates out of the loop, so the remaining files are
not processed and the process exits non-zero (the Bool component). -/
def runBatch : List FileEnv → List RunState × Bool
  | [] => ([], false)
  | e :: rest =>
    let r := processFile e.longEnough e.fillerCount e.failsAt
    if r.failed then ([r], true)
    else
      let res := runBatch rest
      (r :: res.1, res.2)

/-! ### Lemmas about pipeline execution -/

/-- Once failed, execution is inert. -/
theorem execCmds_failed (f : Nat → Bool) (l : List Cmd) (s : RunState)
    (h : s.failed = true) : execCmds f l s = s := by
  cases l with
  | nil => rfl
  | cons c cs => simp [execCmds, h]

/-- Failure-free interpretation of a command list as a pure function on the
file set. -/
def applyCmds : List Cmd → List Artifact → List Artifact
  | [], fs => fs
  | .stage a :: cs, fs => applyCmds cs (fs ++ [a])
  | .writeFile a :: cs, fs => applyCmds cs (fs ++ [a])
  | .removeFile a :: cs, fs => applyCmds cs (fs.filter (· ≠ a))

/-- A run that ends unfailed performed every command. -/
theorem execCmds_success_files (f : Nat → Bool) (l : List Cmd) (s : RunState)
    (h : (execCmds f l s).failed = false) :
    (execCmds f l s).files = applyCmds l s.files := by
  induction l generalizing s with
  | nil => rfl
  | cons c cs ih =>
    by_cases hf : s.failed
    · rw [execCmds_failed f (c :: cs) s hf] at h
      exact absurd h (by simp [hf])
    · simp only [execCmds, if_neg hf] at h ⊢
      cases c with
      | stage a =>
        by_cases hx : f s.stageIdx
        · have : (execCmds f cs (execCmd f (.stage a) s)).failed = true := by
            rw [execCmds_failed]
            · simp [execCmd, hx]
            · simp [execCmd, hx]
          rw [this] at h; exact absurd h (by simp)
        · rw [ih _ h]
          simp [execCmd, hx, applyCmds]
      | writeFile a =>
        rw [ih _ h]
        simp [execCmd, applyCmds]
      | removeFile a =>
        rw [ih _ h]
        simp [execCmd, applyCmds]

/-- `applyCmds` distributes over concatenation. -/
theorem applyCmds_append (l1 l2 : List Cmd) (fs : List Artifact) :
    applyCmds (l1 ++ l2) fs = applyCmds l2 (applyCmds l1 fs) := by
  induction l1 generalizing fs with
  | nil => rfl
  | cons c cs ih => cases c <;> simp [applyCmds, ih]

/-- Stage commands over a list of counters just append the artifacts. -/
theorem applyCmds_filler_stages (js : List Nat) (fs : List Artifact) :
    applyCmds (js.map fun j => Cmd.stage (.tempFiller j)) fs
      = fs ++ js.map Artifact.tempFiller := by
  induction js generalizing fs with
  | nil => simp [applyCmds]
  | cons j js ih => simp [applyCmds, ih]

/-- Removing a list of artifacts filters them all out. -/
theorem applyCmds_removeAll (L : List Artifact) (fs : List Artifact) :
    applyCmds (L.map Cmd.removeFile) fs = fs.filter (fun a => a ∉ L) := by
  induction L generalizing fs with
  | nil => simp [applyCmds]
  | cons x xs ih =>
    simp only [List.map_cons, applyCmds]
    rw [ih, List.filter_filter]
    apply List.filter_congr
    intro a _
    by_cases h1 : a = x <;> by_cases h2 : a ∈ xs <;> simp [h1, h2]

/-- On the success path, the pipeline's net effect on the work set is to
leave exactly the final output. -/
theorem applyCmds_fileCmds (longEnough : Bool) (fc : Nat) :
    applyCmds (fileCmds longEnough fc) [] = [Artifact.finalOutput] := by
  cases longEnough with
  | true => simp [fileCmds, replacementCmds, cleanupCmds, applyCmds]
  | false =>
    have hrep : replacementCmds false fc
        = [Cmd.stage .tempOriginal, Cmd.writeFile .tempSegments]
            ++ (List.range fc).map (fun j => Cmd.stage (.tempFiller j))
            ++ [Cmd.stage .tempProcessed, Cmd.removeFile .tempOriginal]
            ++ ((List.range fc).map Artifact.tempFiller).map Cmd.removeFile
            ++ [Cmd.removeFile .tempSegments] := by
      simp [replacementCmds, List.map_map, Function.comp]
    simp only [fileCmds, hrep, cleanupCmds, applyCmds_append]
    rw [applyCmds_filler_stages, applyCmds_removeAll]
    simp [applyCmds, List.filter_append, List.mem_map, List.filter_eq_nil_iff]

/-- Command lists consisting of removals only (the shape of the cleanup
block). -/
def cleanupOnly : List Cmd → Bool
  | [] => true
  | .removeFile _ :: cs => cleanupOnly cs
  | .stage _ :: _ => false
  | .writeFile _ :: _ => false

/-- The final output is created only by a stage command that is followed
exclusively by removals, and no manifest write creates it. -/
def outputLast : List Cmd → Bool
  | [] => true
  | .stage a :: cs =>
    if a = .finalOutput then cleanupOnly cs else outputLast cs
  | .writeFile a :: cs => if a = .finalOutput then false else outputLast cs
  | .removeFile _ :: cs => outputLast cs

/-- Removals never raise, so a removal-only suffix preserves the failure
flag. -/
theorem execCmds_cleanupOnly_failed (f : Nat → Bool) (l : List Cmd)
    (hl : cleanupOnly l = true) (s : RunState) :
    (execCmds f l s).failed = s.failed := by
  induction l generalizing s with
  | nil => rfl
  | cons c cs ih =>
    cases c with
    | stage a => simp [cleanupOnly] at hl
    | writeFile a => simp [cleanupOnly] at hl
    | removeFile a =>
      simp only [cleanupOnly] at hl
      by_cases hf : s.failed
      · simp [execCmds, hf]
      · simp only [execCmds, if_neg hf, execCmd]
        rw [ih hl]

theorem outputLast_filler_stages (js : List Nat) (rest : List Cmd) :
    outputLast ((js.map fun j => Cmd.stage (.tempFiller j)) ++ rest)
      = outputLast rest := by
  induction js with
  | nil => rfl
  | cons j js ih => simp [outputLast, ih]

theorem outputLast_removes (g : Nat → Artifact) (js : List Nat) (rest : List Cmd) :
    outputLast (js.map (fun j => Cmd.removeFile (g j)) ++ rest) = outputLast rest := by
  induction js with
  | nil => rfl
  | cons x xs ih => simp [outputLast, ih]

/-- The per-file pipeline creates the final output last, with only the
cleanup removals after it. -/
theorem outputLast_fileCmds (longEnough : Bool) (fc : Nat) :
    outputLast (fileCmds longEnough fc) = true := by
  cases longEnough with
  | true => simp [fileCmds, replacementCmds, cleanupCmds, outputLast, cleanupOnly]
  | false =>
    simp [fileCmds, replacementCmds, cleanupCmds, outputLast, cleanupOnly,
      outputLast_filler_stages, outputLast_removes, Function.comp_def]

/-- If the pipeline failed and the final output can only be created by its
last stage, then the final output is absent from the surviving files. -/
theorem execCmds_output_absent (f : Nat → Bool) (l : List Cmd) (s : RunState)
    (hl : outputLast l = true) (hs : Artifact.finalOutput ∉ s.files)
    (hfail : (execCmds f l s).failed = true) :
    Artifact.finalOutput ∉ (execCmds f l s).files := by
  induction l generalizing s with
  | nil => simpa [execCmds] using hs
  | cons c cs ih =>
    by_cases hf : s.failed
    · rw [execCmds_failed f (c :: cs) s hf]
      exact hs
    · simp only [execCmds, if_neg hf] at hfail ⊢
      cases c with
      | stage a =>
        by_cases ha : a = Artifact.finalOutput
        · subst ha
          simp only [outputLast, if_pos rfl] at hl
          by_cases hx : f s.stageIdx
          · rw [execCmds_failed]
            · simpa [execCmd, hx] using hs
            · simp [execCmd, hx]
          · have hpres := execCmds_cleanupOnly_failed f cs hl
              (execCmd f (.stage .finalOutput) s)
            rw [hpres] at hfail
            simp [execCmd, hx] at hfail
        · simp only [outputLast, if_neg ha] at hl
          by_cases hx : f s.stageIdx
          · rw [execCmds_failed]
            · simpa [execCmd, hx] using hs
            · simp [execCmd, hx]
          · refine ih (execCmd f (.stage a) s) hl ?_ hfail
            simp [execCmd, hx, hs, ha, Ne.symm ha]
      | writeFile a =>
        by_cases ha : a = Artifact.finalOutput
        · simp [outputLast, ha] at hl
        · simp only [outputLast, if_neg ha] at hl
          refine ih (execCmd f (.writeFile a) s) hl ?_ hfail
          simp [execCmd, hs, ha, Ne.symm ha]
      | removeFile a =>
        simp only [outputLast] at hl
        refine ih (execCmd f (.removeFile a) s) hl ?_ hfail
        simp only [execCmd]
        intro hmem
        exact hs (List.mem_of_mem_filter hmem)

/-! ### Claim theorems about cleanup and batch error propagation -/

/-- C1 counterexample: the claim that cleanup runs unconditionally on both
the success and the failure path is false.  When the third external stage
(the main-segment cut) fails, the run ends failed with the extracted audio
and a `temp_`-marked intermediate still present: no cleanup ran. -/
theorem cleanup_skipped_on_failure_counterexample :
    (processFile true 0 (fun k => k == 2)).failed = true ∧
      Artifact.tempProcessed ∈ (processFile true 0 (fun k => k == 2)).files ∧
        Artifact.tempProcessed.hasTempMarker = true ∧
          Artifact.mainAudio ∈ (processFile true 0 (fun k => k == 2)).files := by
  decide

/-- C1 (amended): cleanup runs only on the success path.  When every stage
of a file's pipeline succeeds, all `temp_`-marked intermediates and the
extracted audio are deleted and exactly the final output remains; when a
stage fails, the pipeline aborts at once — the final output is never
produced (and, as the counterexample shows, intermediates created before
the failure survive because the cleanup block is unreachable). -/
theorem processFile_cleanup_only_on_success (longEnough : Bool) (fc : Nat)
    (failsAt : Nat → Bool) :
    ((processFile longEnough fc failsAt).failed = false →
        (processFile longEnough fc failsAt).files = [Artifact.finalOutput]) ∧
      ((processFile longEnough fc failsAt).failed = true →
        Artifact.finalOutput ∉ (processFile longEnough fc failsAt).files) := by
  constructor
  · intro h
    unfold processFile at h ⊢
    rw [execCmds_success_files failsAt _ _ h]
    exact applyCmds_fileCmds longEnough fc
  · intro h
    unfold processFile at h ⊢
    exact execCmds_output_absent failsAt _ _
      (outputLast_fileCmds longEnough fc) (by simp) h

/-- C1 witness: a fully successful run leaves exactly the final output; a
run failing at stage 2 never produced the final output. -/
theorem processFile_cleanup_only_on_success_witness :
    (processFile true 0 (fun _ => false)).files = [Artifact.finalOutput] ∧
      Artifact.finalOutput ∉ (processFile true 0 (fun k => k == 2)).files :=
  ⟨(processFile_cleanup_only_on_success true 0 (fun _ => false)).1 (by decide),
    (processFile_cleanup_only_on_success true 0 (fun k => k == 2)).2 (by decide)⟩

/-- C2 counterexample: the claim that a per-file stage failure never
terminates the whole batch is false.  With two files where the first file's
pipeline fails, the batch stops after one outcome — the second file is
never processed — and the process exits non-zero. -/
theorem batch_continues_counterexample :
    (runBatch [⟨true, 0, fun _ => true⟩, ⟨true, 0, fun _ => false⟩]).1.length = 1 ∧
      (runBatch [⟨true, 0, fun _ => true⟩, ⟨true, 0, fun _ => false⟩]).2 = true := by
  decide

/-- C2 (amended): a stage failure while processing one output file aborts
the entire batch: the exception propagates out of the loop to the top-level
handler, no subsequent file is processed, and the process exits non-zero. -/
theorem batch_aborts_on_stage_failure (e : FileEnv) (rest : List FileEnv)
    (h : (processFile e.longEnough e.fillerCount e.failsAt).failed = true) :
    runBatch (e :: rest)
      = ([processFile e.longEnough e.fillerCount e.failsAt], true) := by
  simp [runBatch, h]

/-- C2 witness: first file fails, second file would succeed; the batch
returns only the first outcome and exits non-zero. -/
theorem batch_aborts_on_stage_failure_witness :
    (processFile true 0 (fun _ => true)).failed = true ∧
      runBatch [⟨true, 0, fun _ => true⟩, ⟨true, 0, fun _ => false⟩]
        = ([processFile true 0 (fun _ => true)], true) :=
  ⟨by decide,
    batch_aborts_on_stage_failure ⟨true, 0, fun _ => true⟩
      [⟨true, 0, fun _ => false⟩] (by decide)⟩

/-! ### The duration probe (src/video_replacer.py:43-51) -/

/-- Observable outcome of the ffprobe subprocess: its exit code and the
result of applying Python's float() to its stripped stdout (`none` when the
output is not parseable as a number).  Note that `subprocess.run` is called
WITHOUT `check=True` here, so a non-zero exit code raises nothing by
itself. -/
structure ProbeResult where
  exitCode : ℤ
  numericOutput : Option ℚ
deriving DecidableEq

/-- Failure of the probe (Python's ValueError from float()). -/
inductive ProbeError where
  | unparsable
deriving DecidableEq

/-- get_video_duration: `float(result.stdout.strip())` — returns the parsed
number whenever parsing succeeds and raises ValueError otherwise; the exit
code is never consulted. -/
def get_video_duration (r : ProbeResult) : Except ProbeError ℚ :=
  match r.numericOutput with
  | some v => .ok v
  | none => .error .unparsable

/-- C8 counterexample: the claim says the probe fails if and only if the
engine exits non-zero or its output is not numeric.  But on an engine run
that exits non-zero while printing a number, the probe returns that value
instead of failing: the "only if" direction of the claim is false. -/
theorem probe_ignores_exit_code_counterexample :
    (⟨1, some 5⟩ : ProbeResult).exitCode ≠ 0 ∧
      get_video_duration ⟨1, some 5⟩ = Except.ok 5 :=
  ⟨by decide, rfl⟩

/-- C8 (amended): the probe fails if and only if the engine's output is not
parseable as a number; the exit code is not consulted, so on numeric output
the value is returned as float seconds regardless of the exit status. -/
theorem get_video_duration_spec (r : ProbeResult) :
    (get_video_duration r = Except.error ProbeError.unparsable ↔
        r.numericOutput = none) ∧
      ∀ v, r.numericOutput = some v → get_video_duration r = Except.ok v := by
  cases hr : r.numericOutput <;> simp [get_video_duration, hr]

/-- C8 witness: numeric output with exit code 0 returns that number. -/
theorem get_video_duration_spec_witness :
    get_video_duration ⟨0, some 7⟩ = Except.ok 7 :=
  (get_video_duration_spec ⟨0, some 7⟩).2 7 rfl

/-! ### Encoder detection (src/video_replacer.py:61-73) -/

/-- The hardware profile: `h264_videotoolbox` with the speed-biased
low-latency parameter set. -/
def hwEncoderProfile : String × String :=
  ("h264_videotoolbox", "-b:v 10M -realtime 1 -prio_speed 1")

/-- The software fallback profile: `libx264` with the balanced
quality/speed parameter set. -/
def swEncoderProfile : String × String := ("libx264", "-crf 23 -preset fast")

/-- detect_encoder: the capability listing is `none` when the query raised
(caught by the bare `except` at src/video_replacer.py:72), otherwise the
list of encoder names the engine printed; membership models the substring
test `'h264_videotoolbox' in result.stdout`. -/
def detect_encoder (listing : Option (List String)) : String × String :=
  match listing with
  | some encoders =>
    if "h264_videotoolbox" ∈ encoders then hwEncoderProfile
    else swEncoderProfile
  | none => swEncoderProfile

/-- C9: encoder resolution is total — every capability-listing outcome,
including a failed query, yields one of the two profiles without raising —
and it yields the hardware profile with the speed-biased parameter set if
and only if the query succeeded and the hardware encoder name appears in
the listing; otherwise it yields the software profile with the balanced
parameter set. -/
theorem detect_encoder_total_spec (listing : Option (List String)) :
    (detect_encoder listing = hwEncoderProfile ∨
        detect_encoder listing = swEncoderProfile) ∧
      (detect_encoder listing = hwEncoderProfile ↔
        ∃ l, listing = some l ∧ "h264_videotoolbox" ∈ l) := by
  have hne : swEncoderProfile ≠ hwEncoderProfile := by decide
  cases listing with
  | none => simp [detect_encoder, hne]
  | some l =>
    by_cases h : "h264_videotoolbox" ∈ l <;> simp [detect_encoder, h, hne]

/-! ### The upsell tail-replace filler (src/upsell_video_replacer.py:192-230) -/

/-- Python's int() applied to a float: truncation toward zero. -/
def pyInt (q : ℚ) : ℤ := if 0 ≤ q then ⌊q⌋ else ⌈q⌉

/-- `loops_needed = int(upsell_needed / upsell_duration) + 1`
(src/upsell_video_replacer.py:194). -/
def loops_needed (upsellNeeded upsellDuration : ℚ) : ℤ :=
  pyInt (upsellNeeded / upsellDuration) + 1

/-- Number of `file '...'` lines written to the loop manifest: the write
loop runs `loops_needed + 1` times (src/upsell_video_replacer.py:199-201). -/
def loopManifestRefs (upsellNeeded upsellDuration : ℚ) : ℤ :=
  loops_needed upsellNeeded upsellDuration + 1

/-- Planned length of the filler (upsell) segment: when the deficit exceeds
the upsell clip's duration, the looped concatenation (duration = manifest
references × upsell duration) is cut with `-t upsell_needed`
(src/upsell_video_replacer.py:213-218); otherwise the upsell clip itself is
cut with `-t upsell_needed` (line 226).  A `-t` cut yields
`min(input duration, t)`. -/
def upsellSectionLength (upsellNeeded upsellDuration : ℚ) : ℚ :=
  if upsellDuration < upsellNeeded then
    min ((loopManifestRefs upsellNeeded upsellDuration : ℚ) * upsellDuration)
      upsellNeeded
  else min upsellDuration upsellNeeded

/-- C7: whenever the deficit `originalDuration - startTime` exceeds the
(positive) upsell clip duration, the loop manifest references the upsell
clip `int(deficit / upsellDuration) + 2` times, the total duration of the
referenced copies strictly exceeds the deficit, and the final cut trims the
filler segment to exactly the deficit. -/
theorem upsell_loop_covers_deficit (d u : ℚ) (hu : 0 < u) (hd : u < d) :
    loopManifestRefs d u = pyInt (d / u) + 2 ∧
      d < (loopManifestRefs d u : ℚ) * u ∧
        upsellSectionLength d u = d := by
  have hdu : (0 : ℚ) ≤ d / u :=
    div_nonneg (le_of_lt (lt_trans hu hd)) (le_of_lt hu)
  have hfloor : pyInt (d / u) = ⌊d / u⌋ := by
    unfold pyInt
    rw [if_pos hdu]
  have h1 : loopManifestRefs d u = ⌊d / u⌋ + 2 := by
    unfold loopManifestRefs loops_needed
    rw [hfloor]
    ring
  have hlt : d < (loopManifestRefs d u : ℚ) * u := by
    rw [h1]
    have h2 : d / u < (⌊d / u⌋ : ℚ) + 1 := Int.lt_floor_add_one _
    have h4 := mul_lt_mul_of_pos_right h2 hu
    rw [div_mul_cancel₀ d (ne_of_gt hu)] at h4
    have h5 : ((⌊d / u⌋ + 2 : ℤ) : ℚ) * u = ((⌊d / u⌋ : ℚ) + 1) * u + u := by
      push_cast
      ring
    rw [h5]
    linarith
  refine ⟨by rw [h1, hfloor], hlt, ?_⟩
  rw [upsellSectionLength, if_pos hd, min_eq_right (le_of_lt hlt)]

/-- C7 witness: deficit 5s, upsell clip 2s: the manifest holds
`int(5/2) + 2 = 4` references, totalling 8s > 5s, and the section is cut to
exactly 5s. -/
theorem upsell_loop_covers_deficit_witness :
    (0 : ℚ) < 2 ∧ (2 : ℚ) < 5 ∧
      loopManifestRefs 5 2 = pyInt (5 / 2) + 2 ∧
        (5 : ℚ) < (loopManifestRefs 5 2 : ℚ) * 2 ∧
          upsellSectionLength 5 2 = 5 :=
  ⟨by norm_num, by norm_num,
    (upsell_loop_covers_deficit 5 2 (by norm_num) (by norm_num)).1,
    (upsell_loop_covers_deficit 5 2 (by norm_num) (by norm_num)).2.1,
    (upsell_loop_covers_deficit 5 2 (by norm_num) (by norm_num)).2.2⟩

end AutoVideoEditor
